import Mathlib

/-!
A verification development for the `pmem-atomic` library (persistent
multi-word compare-and-swap on PMEM).

The definitions below are a shallow embedding of the C++ sources:

* `src/include/pmem/atomic/utility.hpp` — the tagged-word flag constants
  of the current `dbgroup::pmem::atomic` core;
* `src/include/pmwcas/component/pmwcas_word.hpp` — the legacy
  `dbgroup::atomic::pmwcas::component::PMwCASWord` flag layout;
* `src/include/pmem/atomic/pmwcas_descriptor.hpp` — `PMwCASDescriptor::Add`;
* `src/src/pmwcas_descriptor.cpp` — `PMwCASDescriptor::PMwCAS` and
  `PMwCASDescriptor::Initialize`;
* `src/src/component/pmwcas_target.cpp` — `PMwCASTarget::EmbedDescriptor`,
  `Flush`, `Redo`, `Undo`, `Recover`;
* `src/src/component/common.cpp` — `ResolveIntermediateState`;
* `src/src/atomic.cpp` / `src/include/pmwcas/atomic.hpp` — `PCAS`.

Machine words are `Nat` values below `2^64`; bitwise operations use
`Nat.land` / `Nat.lor` / `Nat.xor`.  Whole-descriptor operations
(`PMwCAS`, `Initialize`, `Add`) are modelled in the single-owner,
no-interference setting that the library prescribes for descriptors
(one descriptor per thread).  The single-word operations
(`ResolveIntermediateState`, `PCAS`) are modelled over a shared cell
with an explicit adversary schedule, since their behaviour is driven by
concurrent writers; loops there are bounded by explicit fuel and return
`Option` (`none` = the loop was still running when the fuel ran out).
-/

/-! ### Flag constants

From `src/include/pmem/atomic/utility.hpp`:
`kDirtyFlag = 0b1UL << 63UL`, `kPMwCASFlag = 0b1UL << 62UL`,
`kIsIntermediate = kDirtyFlag | kPMwCASFlag`. -/

/-- `kWordSize` from `utility.hpp`: one word is 8 bytes. -/
def kWordSize : Nat := 8

/-- `kDirtyFlag` from `pmem/atomic/utility.hpp`: bit 63. -/
def kDirtyFlag : Nat := 2 ^ 63

/-- `kPMwCASFlag` from `pmem/atomic/utility.hpp`: bit 62. -/
def kPMwCASFlag : Nat := 2 ^ 62

/-- `kIsIntermediate` from `pmem/atomic/utility.hpp`. -/
def kIsIntermediate : Nat := kDirtyFlag ||| kPMwCASFlag

/-- Modelled from the spec: `kPMwCASCapacity` expands the build macro
`PMEM_ATOMIC_PMWCAS_CAPACITY`, whose definition is not under `src/`;
the spec fixes the default `K = 4`. -/
def kPMwCASCapacity : Nat := 4

/-- Modelled from the spec: `kRetryNum` expands the build macro
`PMEM_ATOMIC_SPINLOCK_RETRY_NUM`, whose definition is not under `src/`;
the spec gives the default spin budget `R = 10`. -/
def kRetryNum : Nat := 10

/-- The all-ones 64-bit mask; `~x` on a `uint64_t` is `kMask64 ^^^ x`. -/
def kMask64 : Nat := 2 ^ 64 - 1

/-- `word & ~kDirtyFlag` on a 64-bit word. -/
def clearDirty (w : Nat) : Nat := w &&& (kMask64 ^^^ kDirtyFlag)

/-! The legacy word layout, from
`src/include/pmwcas/component/pmwcas_word.hpp` (`PMwCASWord`). -/

/-- `PMwCASWord::kPMwCASFlagPos` (legacy layout): 63. -/
def PMwCASWord.kPMwCASFlagPos : Nat := 63

/-- `PMwCASWord::kDirtyFlagPos` (legacy layout): 62. -/
def PMwCASWord.kDirtyFlagPos : Nat := 62

/-- `PMwCASWord::kPMwCASFlag` (legacy layout). -/
def PMwCASWord.kPMwCASFlag : Nat := 2 ^ PMwCASWord.kPMwCASFlagPos

/-- `PMwCASWord::kDirtyFlag` (legacy layout). -/
def PMwCASWord.kDirtyFlag : Nat := 2 ^ PMwCASWord.kDirtyFlagPos

/-- `PMwCASWord::IsIntermediate` (legacy, `kUseDirtyFlag` variant):
`word_ & (kPMwCASFlag | kDirtyFlag)`. -/
def PMwCASWord.IsIntermediate (w : Nat) : Bool :=
  w &&& (PMwCASWord.kPMwCASFlag ||| PMwCASWord.kDirtyFlag) != 0

/-- `PMwCASWord::IsNotPersisted` (legacy, `kUseDirtyFlag` variant):
`word_ & kDirtyFlag`. -/
def PMwCASWord.IsNotPersisted (w : Nat) : Bool :=
  w &&& PMwCASWord.kDirtyFlag != 0

/-! Predicates of the current core, as the code tests them
(`word & kDirtyFlag`, `word & kPMwCASFlag`, `word & kIsIntermediate`). -/

/-- The current core's dirty test: `word & kDirtyFlag != 0`. -/
def isDirtyWord (w : Nat) : Bool := w &&& kDirtyFlag != 0

/-- The current core's descriptor test: `word & kPMwCASFlag != 0`. -/
def isDescriptorWord (w : Nat) : Bool := w &&& kPMwCASFlag != 0

/-- The current core's intermediate test: `word & kIsIntermediate != 0`. -/
def isIntermediateWord (w : Nat) : Bool := w &&& kIsIntermediate != 0

/-! ### Memory orders and events -/

/-- `std::memory_order`. -/
inductive MemOrder where
  | relaxed
  | consume
  | acquire
  | release
  | acqRel
  | seqCst
deriving DecidableEq, Repr

/-- `kMORelax` from `pmem/atomic/component/common.hpp`. -/
def kMORelax : MemOrder := MemOrder.relaxed

/-- Observable events of the descriptor-level operations: PMEM flush /
drain calls and the atomic accesses to target words, with the memory
orders the code passes.  Descriptor-header persistence calls are
recorded with the byte count they cover expressed through the number of
registered targets (the exact `sizeof(PMwCASTarget)` is immaterial). -/
inductive Event where
  /-- `pmem_persist(this, kHeaderSize + kWordSize + sizeof(PMwCASTarget) * target_count_)`. -/
  | persistDescPrefix (targetCount : Nat)
  /-- `pmem_flush(this, kHeaderSize)`. -/
  | flushDescHeader
  /-- `pmem_flush(this, kHeaderSize + kWordSize)` (in `Initialize`). -/
  | flushDescHeaderLocator
  /-- `pmem_drain()`. -/
  | drain
  /-- `pmem_flush(addr, kWordSize)` on a target word. -/
  | flushWord (oid : Nat)
  /-- `addr->store(val, order)` on a target word. -/
  | storeWord (oid val : Nat) (order : MemOrder)
  /-- `addr->compare_exchange_strong(expected, desired, succ, fail)` on a target word. -/
  | casWord (oid expected desired : Nat) (succ fail : MemOrder)
deriving DecidableEq, Repr

/-! ### Word memory and the descriptor data model -/

/-- PMEM word memory: object locators (`PMEMoid` offsets) to 64-bit words. -/
def Mem : Type := Nat → Nat

/-- Write one word of memory. -/
def writeMem (mem : Mem) (oid v : Nat) : Mem :=
  fun x => if x = oid then v else mem x

/-- `component::DescStatus` from `pmem/atomic/component/common.hpp`. -/
inductive DescStatus where
  | kCompleted
  | kFailed
  | kSucceeded
deriving DecidableEq, Repr

/-- `component::PMwCASTarget`: an object locator for the target word,
the expected (`old_val_`) and desired (`new_val_`) words, and the
caller-chosen memory order (`fence_`). -/
structure PMwCASTarget where
  oid : Nat
  old_val : Nat
  new_val : Nat
  fence : MemOrder
deriving DecidableEq, Repr

/-- `PMwCASDescriptor`: the status word, the self locator `desc_addr_`
(set by `Initialize`), and the used prefix of the fixed target array
`targets_[kPMwCASCapacity]`; `target_count_` is the length of
`targets`. -/
structure PMwCASDescriptor where
  status : DescStatus
  desc_addr : Nat
  targets : List PMwCASTarget
deriving DecidableEq, Repr

/-- `PMwCASDescriptor::Size()` / the `target_count_` field. -/
def PMwCASDescriptor.target_count (d : PMwCASDescriptor) : Nat :=
  d.targets.length

/-- `PMwCASDescriptor::Add` from `pmem/atomic/pmwcas_descriptor.hpp`:
`assert(target_count_ < kPMwCASCapacity); targets_[target_count_++] = ...`.
The assertion is the fail-fast guard; a call that would violate it is
modelled as `none`. -/
def PMwCASDescriptor.Add (d : PMwCASDescriptor) (t : PMwCASTarget) :
    Option PMwCASDescriptor :=
  if d.targets.length < kPMwCASCapacity then
    some { d with targets := d.targets ++ [t] }
  else
    none

/-- Iterated `Add`, for describing a sequence of registrations. -/
def addAll (d : PMwCASDescriptor) : List PMwCASTarget → Option PMwCASDescriptor
  | [] => some d
  | t :: ts =>
    match d.Add t with
    | some d' => addAll d' ts
    | none => none

/-! ### Per-target operations (`src/src/component/pmwcas_target.cpp`)

In the single-owner model a `compare_exchange_strong` whose `expected`
equals the current word always succeeds, so `EmbedDescriptor`'s CAS is
decided by the loaded value alone. -/

/-- The body of `PMwCASTarget::EmbedDescriptor`'s retry loop, at loop
index `i`:

* load `expected` (relaxed);
* if `expected == old_val_`, CAS `expected -> desc_addr` with success
  order `fence_` and failure order relaxed, and return true;
* if `expected` is not intermediate or `i >= kRetryNum`, return false;
* otherwise spin and retry.

`fuel` is a structural bound on the remaining iterations; called with
`fuel > kRetryNum - i` (as `EmbedDescriptor` does) the fuel can never
run out, because the `i >= kRetryNum` guard stops the loop first. -/
def embedFrom (mem : Mem) (t : PMwCASTarget) (descAddr : Nat) :
    Nat → Nat → Bool × Mem × List Event
  | 0, _ => (false, mem, [])
  | fuel + 1, i =>
    let expected := mem t.oid
    if expected = t.old_val then
      (true, writeMem mem t.oid descAddr,
        [Event.casWord t.oid expected descAddr t.fence MemOrder.relaxed])
    else if expected &&& kIsIntermediate = 0 ∨ kRetryNum ≤ i then
      (false, mem, [])
    else
      embedFrom mem t descAddr fuel (i + 1)

/-- `PMwCASTarget::EmbedDescriptor`. -/
def PMwCASTarget.EmbedDescriptor (t : PMwCASTarget) (mem : Mem) (descAddr : Nat) :
    Bool × Mem × List Event :=
  embedFrom mem t descAddr (kRetryNum + 1) 0

/-- `PMwCASTarget::Flush`: `pmem_flush(addr, kWordSize)`. -/
def PMwCASTarget.Flush (t : PMwCASTarget) : List Event :=
  [Event.flushWord t.oid]

/-- `PMwCASTarget::Redo`: `addr->store(new_val_, kMORelax)` then flush. -/
def PMwCASTarget.Redo (t : PMwCASTarget) (mem : Mem) : Mem × List Event :=
  (writeMem mem t.oid t.new_val,
    [Event.storeWord t.oid t.new_val kMORelax, Event.flushWord t.oid])

/-- `PMwCASTarget::Undo`: `addr->store(old_val_, kMORelax)` then flush. -/
def PMwCASTarget.Undo (t : PMwCASTarget) (mem : Mem) : Mem × List Event :=
  (writeMem mem t.oid t.old_val,
    [Event.storeWord t.oid t.old_val kMORelax, Event.flushWord t.oid])

/-- `PMwCASTarget::Recover`: load the word; if dirty, clear the dirty
bit and flush; else if it equals `desc_addr`, store `new_val_` when
`succeeded` else `old_val_`, and flush. -/
def PMwCASTarget.Recover (t : PMwCASTarget) (succeeded : Bool) (descAddr : Nat)
    (mem : Mem) : Mem × List Event :=
  let word := mem t.oid
  if word &&& kDirtyFlag ≠ 0 then
    (writeMem mem t.oid (clearDirty word),
      [Event.storeWord t.oid (clearDirty word) kMORelax, Event.flushWord t.oid])
  else if word = descAddr then
    let v := if succeeded then t.new_val else t.old_val
    (writeMem mem t.oid v, [Event.storeWord t.oid v kMORelax, Event.flushWord t.oid])
  else
    (mem, [])

/-! ### The PMwCAS commit protocol (`src/src/pmwcas_descriptor.cpp`) -/

/-- The install loop of `PMwCASDescriptor::PMwCAS`:
`for (i = 0; i < target_count_ && targets_[i].EmbedDescriptor(desc_addr_); ++i, ++embedded_count)`.
Returns `embedded_count`, the resulting memory, and the emitted events. -/
def installPhase (mem : Mem) (descAddr : Nat) :
    List PMwCASTarget → Nat × Mem × List Event
  | [] => (0, mem, [])
  | t :: ts =>
    match t.EmbedDescriptor mem descAddr with
    | (true, mem1, evs1) =>
      let r := installPhase mem1 descAddr ts
      (r.1 + 1, r.2.1, evs1 ++ r.2.2)
    | (false, mem1, evs1) => (0, mem1, evs1)

/-- The undo loop: `for (i = 0; i < embedded_count; ++i) targets_[i].Undo()`.
Applied to the embedded prefix of the target list. -/
def undoPhase (mem : Mem) : List PMwCASTarget → Mem × List Event
  | [] => (mem, [])
  | t :: ts =>
    let r1 := t.Undo mem
    let r2 := undoPhase r1.1 ts
    (r2.1, r1.2 ++ r2.2)

/-- The redo loop: `for (i = 0; i < target_count_; ++i) targets_[i].Redo()`. -/
def redoPhase (mem : Mem) : List PMwCASTarget → Mem × List Event
  | [] => (mem, [])
  | t :: ts =>
    let r1 := t.Redo mem
    let r2 := redoPhase r1.1 ts
    (r2.1, r1.2 ++ r2.2)

/-- `PMwCASDescriptor::PMwCAS`, in the single-owner model:

1. `status_ = kFailed; pmem_persist(this, desc_size)`;
2. install loop, counting `embedded_count`;
3. on `embedded_count < target_count_`: undo the embedded prefix,
   drain, reset the descriptor, return false;
4. otherwise flush every target, `status_ = kSucceeded`,
   `pmem_flush(this, kHeaderSize)`, drain, redo every target, drain,
   reset the descriptor, return true. -/
def PMwCASDescriptor.PMwCAS (d : PMwCASDescriptor) (mem : Mem) :
    Bool × PMwCASDescriptor × Mem × List Event :=
  let evs0 := [Event.persistDescPrefix d.targets.length]
  let inst := installPhase mem d.desc_addr d.targets
  if inst.1 < d.targets.length then
    let u := undoPhase inst.2.1 (d.targets.take inst.1)
    (false, { d with status := DescStatus.kCompleted, targets := [] },
      u.1, evs0 ++ inst.2.2 ++ u.2 ++ [Event.drain])
  else
    let evsF := d.targets.flatMap PMwCASTarget.Flush
    let r := redoPhase inst.2.1 d.targets
    (true, { d with status := DescStatus.kCompleted, targets := [] },
      r.1,
      evs0 ++ inst.2.2 ++ evsF ++ [Event.flushDescHeader, Event.drain]
        ++ r.2 ++ [Event.drain])

/-- The recovery loop of `Initialize`:
`for (i = 0; i < target_count_; ++i) targets_[i].Recover(succeeded, desc_addr_)`. -/
def recoverPhase (succeeded : Bool) (descAddr : Nat) (mem : Mem) :
    List PMwCASTarget → Mem × List Event
  | [] => (mem, [])
  | t :: ts =>
    let r1 := t.Recover succeeded descAddr mem
    let r2 := recoverPhase succeeded descAddr r1.1 ts
    (r2.1, r1.2 ++ r2.2)

/-- `PMwCASDescriptor::Initialize`.  `selfOff` stands for
`pmemobj_oid(this).off`, the descriptor's own PMEM offset:

1. `desc_addr_ = pmemobj_oid(this).off | kPMwCASFlag`;
2. if `status_ != kCompleted`, run `Recover` on every registered target
   with `succeeded = (status_ == kSucceeded)`;
3. `status_ = kCompleted; target_count_ = 0;
   pmem_flush(this, kHeaderSize + kWordSize)`. -/
def PMwCASDescriptor.Initialize (d : PMwCASDescriptor) (selfOff : Nat) (mem : Mem) :
    PMwCASDescriptor × Mem × List Event :=
  let descAddr := selfOff ||| kPMwCASFlag
  let rec1 :=
    if d.status ≠ DescStatus.kCompleted then
      recoverPhase (d.status = DescStatus.kSucceeded) descAddr mem d.targets
    else
      (mem, [])
  ({ status := DescStatus.kCompleted, desc_addr := descAddr, targets := [] },
    rec1.1, rec1.2 ++ [Event.flushDescHeaderLocator])

/-! ### The shared-cell model for `ResolveIntermediateState` and `PCAS`

A single 64-bit word shared with concurrent threads.  The adversary
schedule `adv : Nat → Option Nat` may overwrite the cell once
immediately before each of our atomic accesses (indexed by the cell's
logical time); since only the value present at each of our accesses is
observable, this covers every word-granularity interleaving. -/

/-- One shared word together with a logical access counter. -/
structure Cell where
  val : Nat
  time : Nat
deriving DecidableEq, Repr

/-- The adversary acts (or not) at the current time, and the clock
advances past the access. -/
def advStep (adv : Nat → Option Nat) (c : Cell) : Cell :=
  { val := (adv c.time).getD c.val, time := c.time + 1 }

/-- An atomic relaxed load of the shared cell. -/
def loadW (adv : Nat → Option Nat) (c : Cell) : Nat × Cell :=
  let c1 := advStep adv c
  (c1.val, c1)

/-- An atomic compare-and-exchange on the shared cell: returns whether
it succeeded, the observed value (the C++ in/out `expected`), and the
cell afterwards. -/
def casW (adv : Nat → Option Nat) (c : Cell) (expected desired : Nat) :
    Bool × Nat × Cell :=
  let c1 := advStep adv c
  if c1.val = expected then
    (true, expected, { c1 with val := desired })
  else
    (false, c1.val, c1)

/-- Persistence-barrier events emitted by the single-word operations,
tagged by their source site: `common.cpp:56` (the resolver's
`pmem_persist`) versus `atomic.cpp:57` (`PCAS`'s own `pmem_persist`). -/
inductive CellEvent where
  | persistResolve
  | persistPCAS
deriving DecidableEq, Repr

/-- The bounded spin of `ResolveIntermediateState`
(`for (i = 0; i < kRetryNum; ++i) { hint; word = load; if clean return; }`):
returns the last loaded word (or the entry word when `n = 0`) and the
cell after the loads performed. -/
def spinLoad (adv : Nat → Option Nat) : Nat → Cell → Nat → Nat × Cell
  | 0, c, word => (word, c)
  | n + 1, c, _word =>
    let r := loadW adv c
    if r.1 &&& kIsIntermediate = 0 then
      (r.1, r.2)
    else
      spinLoad adv n r.2 r.1

/-- The outcome of one iteration of the resolver's outer `while` loop:
either the function returns (`ret`) with the final local copy, or the
loop continues (`cont`) with the refreshed local copy. -/
inductive IterOut where
  | ret (word : Nat) (c : Cell) (evs : List CellEvent)
  | cont (word : Nat) (c : Cell) (evs : List CellEvent)
deriving DecidableEq, Repr

/-- One iteration of the body of `ResolveIntermediateState`'s `while`
loop (`src/src/component/common.cpp`, lines 44-60):

* bounded spin of `kRetryNum` relaxed reloads; return on a clean value;
* remember `orig_word`, sleep for the back-off, reload;
* return if the reload is clean;
* continue the outer loop if the descriptor flag is set or the word
  changed across the back-off;
* otherwise `pmem_persist` the word and CAS it from the dirty form to
  the same value with the dirty bit cleared: on success clear the dirty
  bit in the local copy and return; on failure the CAS has refreshed
  the local copy and the outer loop continues. -/
def resolveIter (adv : Nat → Option Nat) (c : Cell) (word : Nat) : IterOut :=
  let s := spinLoad adv kRetryNum c word
  if s.1 &&& kIsIntermediate = 0 then
    IterOut.ret s.1 s.2 []
  else
    let origWord := s.1
    let l := loadW adv s.2
    if l.1 &&& kIsIntermediate = 0 then
      IterOut.ret l.1 l.2 []
    else if l.1 &&& kPMwCASFlag ≠ 0 ∨ l.1 ≠ origWord then
      IterOut.cont l.1 l.2 []
    else
      let r := casW adv l.2 l.1 (clearDirty l.1)
      if r.1 then
        IterOut.ret (clearDirty l.1) r.2.2 [CellEvent.persistResolve]
      else
        IterOut.cont r.2.1 r.2.2 [CellEvent.persistResolve]

/-- `ResolveIntermediateState`, with explicit fuel bounding the number
of outer `while` iterations: `none` means the loop was still running
when the fuel ran out. -/
def resolveIS (adv : Nat → Option Nat) :
    Nat → Cell → Nat → Option (Nat × Cell × List CellEvent)
  | 0, _, _ => none
  | fuel + 1, c, word =>
    if word &&& kIsIntermediate = 0 then
      some (word, c, [])
    else
      match resolveIter adv c word with
      | IterOut.ret w c1 evs => some (w, c1, evs)
      | IterOut.cont w c1 evs =>
        match resolveIS adv fuel c1 w with
        | some (w2, c2, evs2) => some (w2, c2, evs ++ evs2)
        | none => none

/-- The retry loop of `PCAS<uint64_t>` (`src/src/atomic.cpp`; the
header template in `src/include/pmwcas/atomic.hpp` is identical for
64-bit words).  `fuel` bounds the iterations of the `while` loop and
`rfuel` is handed to the resolver:

* CAS `expected -> desired | kDirtyFlag` (relaxed / `failure`);
* on success: `pmem_persist` the word, then CAS the dirty form to
  `desired` (`success` / relaxed; failure of this CAS is benign), and
  return true with `expected` unchanged;
* on failure `expected` holds the observed word: resolve it when its
  dirty bit is set; return false when it differs from the original
  expected value; otherwise retry. -/
def pcasLoop (adv : Nat → Option Nat) (rfuel : Nat) :
    Nat → Cell → Nat → Nat → Nat → Option (Bool × Nat × Cell × List CellEvent)
  | 0, _, _, _, _ => none
  | fuel + 1, c, origExpected, expected, desired =>
    let dirty_v := desired ||| kDirtyFlag
    let r := casW adv c expected dirty_v
    if r.1 then
      let r2 := casW adv r.2.2 dirty_v desired
      some (true, expected, r2.2.2, [CellEvent.persistPCAS])
    else
      let obs := r.2.1
      if obs &&& kDirtyFlag ≠ 0 then
        match resolveIS adv rfuel r.2.2 obs with
        | none => none
        | some (w, c2, evs) =>
          if w ≠ origExpected then
            some (false, w, c2, evs)
          else
            match pcasLoop adv rfuel fuel c2 origExpected w desired with
            | some out => some (out.1, out.2.1, out.2.2.1, evs ++ out.2.2.2)
            | none => none
      else
        if obs ≠ origExpected then
          some (false, obs, r.2.2, [])
        else
          pcasLoop adv rfuel fuel r.2.2 origExpected obs desired

/-- `PCAS<uint64_t>`: run the retry loop with
`orig_expected = expected`. -/
def PCAS (adv : Nat → Option Nat) (fuel rfuel : Nat) (c : Cell)
    (expected desired : Nat) : Option (Bool × Nat × Cell × List CellEvent) :=
  pcasLoop adv rfuel fuel c expected expected desired

/-! ### Basic bit-level lemmas -/

/-- Conjunction distributes over disjunction, bitwise. -/
theorem land_lor_distrib_left (w a b : Nat) :
    w &&& (a ||| b) = (w &&& a) ||| (w &&& b) :=
  Nat.eq_of_testBit_eq fun i => by
    simp [Nat.testBit_land, Nat.testBit_lor, Bool.and_or_distrib_left]

/-- A bitwise disjunction vanishes exactly when both sides do. -/
theorem lor_eq_zero (a b : Nat) : a ||| b = 0 ↔ a = 0 ∧ b = 0 := by
  constructor
  · intro h
    constructor
    · exact Nat.eq_of_testBit_eq fun i => by
        have hb := congrArg (fun n => Nat.testBit n i) h
        simp [Nat.testBit_lor] at hb
        simp [hb.1]
    · exact Nat.eq_of_testBit_eq fun i => by
        have hb := congrArg (fun n => Nat.testBit n i) h
        simp [Nat.testBit_lor] at hb
        simp [hb.2]
  · rintro ⟨ha, hb⟩
    rw [ha, hb]
    simp

/-- A word clean of the intermediate mask carries neither flag. -/
theorem clean_flags (w : Nat) (h : w &&& kIsIntermediate = 0) :
    w &&& kDirtyFlag = 0 ∧ w &&& kPMwCASFlag = 0 := by
  have hd : w &&& kIsIntermediate = (w &&& kDirtyFlag) ||| (w &&& kPMwCASFlag) :=
    land_lor_distrib_left w kDirtyFlag kPMwCASFlag
  rw [hd] at h
  exact (lor_eq_zero _ _).mp h

/-- A word with the dirty bit carries the intermediate mask. -/
theorem dirty_intermediate (w : Nat) (h : w &&& kDirtyFlag ≠ 0) :
    w &&& kIsIntermediate ≠ 0 := by
  intro hI
  exact h (clean_flags w hI).1

/-- `clearDirty` clears the dirty bit… -/
theorem clearDirty_no_dirty (w : Nat) : clearDirty w &&& kDirtyFlag = 0 := by
  have : (kMask64 ^^^ kDirtyFlag) &&& kDirtyFlag = 0 := by decide
  rw [clearDirty, Nat.land_assoc, this]
  simp

/-- …and preserves the descriptor bit. -/
theorem clearDirty_pmwcas (w : Nat) :
    clearDirty w &&& kPMwCASFlag = w &&& kPMwCASFlag := by
  have : (kMask64 ^^^ kDirtyFlag) &&& kPMwCASFlag = kPMwCASFlag := by decide
  rw [clearDirty, Nat.land_assoc, this]

/-- Point lookups through `writeMem`. -/
theorem writeMem_same (mem : Mem) (oid v : Nat) : writeMem mem oid v oid = v := by
  simp [writeMem]

theorem writeMem_other (mem : Mem) (oid v x : Nat) (h : x ≠ oid) :
    writeMem mem oid v x = mem x := by
  simp [writeMem, h]

/-! ### Characterizations of the per-target operations -/

/-- In the single-owner model the install loop is decided by the loaded
word alone: the CAS succeeds exactly when the target word equals
`old_val_`, and a failing call leaves memory untouched. -/
theorem embedFrom_eq_aux (fuel : Nat) :
    ∀ (mem : Mem) (t : PMwCASTarget) (descAddr i : Nat),
      kRetryNum - i < fuel →
      embedFrom mem t descAddr fuel i =
        if mem t.oid = t.old_val then
          (true, writeMem mem t.oid descAddr,
            [Event.casWord t.oid (mem t.oid) descAddr t.fence MemOrder.relaxed])
        else
          (false, mem, []) := by
  induction fuel with
  | zero =>
    intro mem t a i hle
    omega
  | succ n ih =>
    intro mem t a i hle
    rw [embedFrom]
    by_cases hm : mem t.oid = t.old_val
    · simp [hm]
    · by_cases hg : mem t.oid &&& kIsIntermediate = 0 ∨ kRetryNum ≤ i
      · simp [hm, hg]
      · have hi : i < kRetryNum := by
          rcases Nat.lt_or_ge i kRetryNum with h | h
          · exact h
          · exact absurd (Or.inr h) hg
        have he := ih mem t a (i + 1) (by omega)
        simp [hm, hg, he]

/-- The install loop, closed form (`EmbedDescriptor`'s fuel suffices). -/
theorem embedFrom_eq (mem : Mem) (t : PMwCASTarget) (descAddr i : Nat) :
    embedFrom mem t descAddr (kRetryNum + 1) i =
      if mem t.oid = t.old_val then
        (true, writeMem mem t.oid descAddr,
          [Event.casWord t.oid (mem t.oid) descAddr t.fence MemOrder.relaxed])
      else
        (false, mem, []) :=
  embedFrom_eq_aux (kRetryNum + 1) mem t descAddr i (by omega)

/-! ### Phase lemmas -/

/-- The undo loop leaves non-target addresses unchanged. -/
theorem undoPhase_untouched (ts : List PMwCASTarget) :
    ∀ (mem : Mem) (x : Nat), (∀ t ∈ ts, t.oid ≠ x) →
      (undoPhase mem ts).1 x = mem x := by
  induction ts with
  | nil => intro mem x _; rfl
  | cons t ts ih =>
    intro mem x h
    have hx : t.oid ≠ x := h t (by simp)
    simp only [undoPhase, PMwCASTarget.Undo]
    rw [ih _ x (fun u hu => h u (by simp [hu]))]
    exact writeMem_other mem t.oid t.old_val x (Ne.symm hx)

/-- With pairwise-distinct target addresses, the undo loop restores
each target's `old_val_`. -/
theorem undoPhase_val (ts : List PMwCASTarget) :
    ∀ (mem : Mem) (t : PMwCASTarget),
      (ts.map fun u => u.oid).Nodup → t ∈ ts →
      (undoPhase mem ts).1 t.oid = t.old_val := by
  induction ts with
  | nil => intro _ _ _ h; cases h
  | cons u ts ih =>
    intro mem t hnd ht
    simp only [List.map_cons, List.nodup_cons] at hnd
    rcases List.mem_cons.mp ht with he | hm
    · subst he
      simp only [undoPhase, PMwCASTarget.Undo]
      rw [undoPhase_untouched ts _ t.oid ?hout]
      · exact writeMem_same mem t.oid t.old_val
      case hout =>
        intro v hv hvv
        exact hnd.1 (hvv ▸ List.mem_map_of_mem (fun w => w.oid) hv)
    · simp only [undoPhase, PMwCASTarget.Undo]
      exact ih _ t hnd.2 hm

/-- The redo loop leaves non-target addresses unchanged. -/
theorem redoPhase_untouched (ts : List PMwCASTarget) :
    ∀ (mem : Mem) (x : Nat), (∀ t ∈ ts, t.oid ≠ x) →
      (redoPhase mem ts).1 x = mem x := by
  induction ts with
  | nil => intro mem x _; rfl
  | cons t ts ih =>
    intro mem x h
    have hx : t.oid ≠ x := h t (by simp)
    simp only [redoPhase, PMwCASTarget.Redo]
    rw [ih _ x (fun u hu => h u (by simp [hu]))]
    exact writeMem_other mem t.oid t.new_val x (Ne.symm hx)

/-- With pairwise-distinct target addresses, the redo loop installs
each target's `new_val_`. -/
theorem redoPhase_val (ts : List PMwCASTarget) :
    ∀ (mem : Mem) (t : PMwCASTarget),
      (ts.map fun u => u.oid).Nodup → t ∈ ts →
      (redoPhase mem ts).1 t.oid = t.new_val := by
  induction ts with
  | nil => intro _ _ _ h; cases h
  | cons u ts ih =>
    intro mem t hnd ht
    simp only [List.map_cons, List.nodup_cons] at hnd
    rcases List.mem_cons.mp ht with he | hm
    · subst he
      simp only [redoPhase, PMwCASTarget.Redo]
      rw [redoPhase_untouched ts _ t.oid ?hout2]
      · exact writeMem_same mem t.oid t.new_val
      case hout2 =>
        intro v hv hvv
        exact hnd.1 (hvv ▸ List.mem_map_of_mem (fun w => w.oid) hv)
    · simp only [redoPhase, PMwCASTarget.Redo]
      exact ih _ t hnd.2 hm

/-- The install loop embeds at most one descriptor per target. -/
theorem installPhase_le (ts : List PMwCASTarget) :
    ∀ (mem : Mem) (a : Nat), (installPhase mem a ts).1 ≤ ts.length := by
  induction ts with
  | nil => intro _ _; simp [installPhase]
  | cons t ts ih =>
    intro mem a
    by_cases hm : mem t.oid = t.old_val <;>
      simp [installPhase, PMwCASTarget.EmbedDescriptor, embedFrom_eq, hm]
    exact ih _ a

/-- The install loop writes only at the addresses of the targets it
embedded (the prefix of length `embedded_count`). -/
theorem installPhase_untouched (ts : List PMwCASTarget) :
    ∀ (mem : Mem) (a x : Nat),
      x ∉ ((ts.take (installPhase mem a ts).1).map fun u => u.oid) →
      (installPhase mem a ts).2.1 x = mem x := by
  induction ts with
  | nil => intro _ _ _ _; rfl
  | cons t ts ih =>
    intro mem a x hx
    by_cases hm : mem t.oid = t.old_val
    · simp only [installPhase, PMwCASTarget.EmbedDescriptor, embedFrom_eq, hm,
        if_pos] at hx ⊢
      simp only [List.take_succ_cons, List.map_cons, List.mem_cons] at hx
      push_neg at hx
      rw [ih _ a x hx.2]
      exact writeMem_other mem t.oid a x hx.1
    · simp only [installPhase, PMwCASTarget.EmbedDescriptor, embedFrom_eq, hm,
        if_neg, if_false]

/-! ### Claim theorems for the commit protocol -/

/-- C1.  If `PMwCAS()` returns true then every registered target word
holds its `new_val_` when the call returns (the value stored by `Redo`),
and a flush of that word was issued.  Target addresses are assumed
pairwise distinct (the spec registers *K* independent words). -/
theorem pmwcas_true_installs_new (d : PMwCASDescriptor) (mem : Mem)
    (hnd : (d.targets.map fun t => t.oid).Nodup)
    (hres : (d.PMwCAS mem).1 = true) :
    ∀ t ∈ d.targets,
      (d.PMwCAS mem).2.2.1 t.oid = t.new_val ∧
      Event.flushWord t.oid ∈ (d.PMwCAS mem).2.2.2 := by
  intro t ht
  by_cases hlt : (installPhase mem d.desc_addr d.targets).1 < d.targets.length
  · simp [PMwCASDescriptor.PMwCAS, hlt] at hres
  · simp only [PMwCASDescriptor.PMwCAS, hlt, if_neg, if_false]
    constructor
    · exact redoPhase_val d.targets _ t hnd ht
    · have hfl : Event.flushWord t.oid ∈ d.targets.flatMap PMwCASTarget.Flush :=
        List.mem_flatMap.mpr ⟨t, ht, by simp [PMwCASTarget.Flush]⟩
      simp [List.mem_append, hfl]

/-- C1 witness: a two-target success. -/
theorem pmwcas_true_installs_new_witness :
    ((⟨DescStatus.kCompleted, 77 ||| kPMwCASFlag,
        [⟨100, 5, 7, MemOrder.seqCst⟩, ⟨200, 6, 8, MemOrder.relaxed⟩]⟩ :
          PMwCASDescriptor).PMwCAS
        (fun a => if a = 100 then 5 else if a = 200 then 6 else 0)).2.2.1 100 = 7 ∧
    Event.flushWord 100 ∈
      ((⟨DescStatus.kCompleted, 77 ||| kPMwCASFlag,
          [⟨100, 5, 7, MemOrder.seqCst⟩, ⟨200, 6, 8, MemOrder.relaxed⟩]⟩ :
            PMwCASDescriptor).PMwCAS
          (fun a => if a = 100 then 5 else if a = 200 then 6 else 0)).2.2.2 :=
  pmwcas_true_installs_new _ _ (by decide) (by decide)
    ⟨100, 5, 7, MemOrder.seqCst⟩ (by decide)

/-- C9.  `pmwcas` with zero registered targets returns true and leaves
memory unchanged. -/
theorem pmwcas_zero_targets (d : PMwCASDescriptor) (mem : Mem)
    (h : d.targets = []) :
    (d.PMwCAS mem).1 = true ∧ (d.PMwCAS mem).2.2.1 = mem := by
  simp [PMwCASDescriptor.PMwCAS, h, installPhase, redoPhase]

/-- C9 witness. -/
theorem pmwcas_zero_targets_witness :
    ((⟨DescStatus.kCompleted, 3 ||| kPMwCASFlag, []⟩ :
        PMwCASDescriptor).PMwCAS (fun _ => 42)).1 = true ∧
    ((⟨DescStatus.kCompleted, 3 ||| kPMwCASFlag, []⟩ :
        PMwCASDescriptor).PMwCAS (fun _ => 42)).2.2.1 = (fun _ => 42) :=
  pmwcas_zero_targets _ _ rfl

/-- C2.  If `PMwCAS()` returns false then every registered target word
either still holds its pre-call value (its install never happened) or
has been restored to its `old_val_` by `Undo`, and in particular no
target word is left containing this descriptor's locator.  Ambient
assumptions: pairwise-distinct target addresses, registered `old_val_`s
clean of the reserved bits, the locator carries the descriptor flag,
and no pre-call word already contains the locator. -/
theorem pmwcas_false_reverts (d : PMwCASDescriptor) (mem : Mem)
    (hnd : (d.targets.map fun t => t.oid).Nodup)
    (hclean : ∀ t ∈ d.targets, t.old_val &&& kIsIntermediate = 0)
    (hdesc : d.desc_addr &&& kPMwCASFlag ≠ 0)
    (hpre : ∀ t ∈ d.targets, mem t.oid ≠ d.desc_addr)
    (hres : (d.PMwCAS mem).1 = false) :
    ∀ t ∈ d.targets,
      ((d.PMwCAS mem).2.2.1 t.oid = mem t.oid ∨
        (d.PMwCAS mem).2.2.1 t.oid = t.old_val) ∧
      (d.PMwCAS mem).2.2.1 t.oid ≠ d.desc_addr := by
  intro t ht
  by_cases hlt : (installPhase mem d.desc_addr d.targets).1 < d.targets.length
  case neg => simp [PMwCASDescriptor.PMwCAS, hlt] at hres
  set n := (installPhase mem d.desc_addr d.targets).1 with hn
  have hfinal :
      (d.PMwCAS mem).2.2.1 =
        (undoPhase (installPhase mem d.desc_addr d.targets).2.1
          (d.targets.take n)).1 := by
    simp [PMwCASDescriptor.PMwCAS, hlt, hn]
  have hsplit : d.targets.take n ++ d.targets.drop n = d.targets :=
    List.take_append_drop n d.targets
  have hnd2 :
      (((d.targets.take n).map fun u => u.oid) ++
        ((d.targets.drop n).map fun u => u.oid)).Nodup := by
    rw [← List.map_append, hsplit]
    exact hnd
  have hdisj := (List.nodup_append.mp hnd2).2.2
  have hmem : t ∈ d.targets.take n ++ d.targets.drop n := by
    rw [hsplit]; exact ht
  rcases List.mem_append.mp hmem with htk | hdr
  · -- installed and undone: restored to old_val_
    have hval :
        (undoPhase (installPhase mem d.desc_addr d.targets).2.1
          (d.targets.take n)).1 t.oid = t.old_val :=
      undoPhase_val _ _ t (List.Nodup.of_append_left hnd2) htk
    refine ⟨Or.inr (by rw [hfinal]; exact hval), ?_⟩
    rw [hfinal, hval]
    intro hcontra
    have := (clean_flags t.old_val (hclean t ht)).2
    rw [hcontra] at this
    exact hdesc this
  · -- never installed: still the pre-call value
    have hoid : t.oid ∉ (d.targets.take n).map fun u => u.oid := by
      intro hin
      exact hdisj hin (List.mem_map_of_mem (fun u => u.oid) hdr)
    have huntouched :
        (undoPhase (installPhase mem d.desc_addr d.targets).2.1
          (d.targets.take n)).1 t.oid =
          (installPhase mem d.desc_addr d.targets).2.1 t.oid := by
      apply undoPhase_untouched
      intro u hu he
      exact hoid (he ▸ List.mem_map_of_mem (fun w => w.oid) hu)
    have hinst :
        (installPhase mem d.desc_addr d.targets).2.1 t.oid = mem t.oid := by
      apply installPhase_untouched
      rw [← hn]
      exact hoid
    refine ⟨Or.inl ?_, ?_⟩
    · rw [hfinal, huntouched, hinst]
    · rw [hfinal, huntouched, hinst]
      exact hpre t ht

/-- C2 witness: the second of two targets misses, the first is undone. -/
theorem pmwcas_false_reverts_witness :
    (((⟨DescStatus.kCompleted, 77 ||| kPMwCASFlag,
        [⟨100, 5, 7, MemOrder.seqCst⟩, ⟨200, 6, 8, MemOrder.relaxed⟩]⟩ :
          PMwCASDescriptor).PMwCAS
        (fun a => if a = 100 then 5 else 999)).2.2.1 100 = 5 ∨
      ((⟨DescStatus.kCompleted, 77 ||| kPMwCASFlag,
          [⟨100, 5, 7, MemOrder.seqCst⟩, ⟨200, 6, 8, MemOrder.relaxed⟩]⟩ :
            PMwCASDescriptor).PMwCAS
          (fun a => if a = 100 then 5 else 999)).2.2.1 100 = 5) ∧
    ((⟨DescStatus.kCompleted, 77 ||| kPMwCASFlag,
        [⟨100, 5, 7, MemOrder.seqCst⟩, ⟨200, 6, 8, MemOrder.relaxed⟩]⟩ :
          PMwCASDescriptor).PMwCAS
        (fun a => if a = 100 then 5 else 999)).2.2.1 100 ≠ 77 ||| kPMwCASFlag :=
  pmwcas_false_reverts _ _ (by decide) (by decide) (by decide) (by decide)
    (by decide) ⟨100, 5, 7, MemOrder.seqCst⟩ (by decide)

/-- C8.  `Initialize` is idempotent: a second application returns the
same descriptor state (status `kCompleted`, zero targets, the
recomputed locator) and the same target-word contents as the first. -/
theorem initialize_idempotent (d : PMwCASDescriptor) (selfOff : Nat) (mem : Mem) :
    ((d.Initialize selfOff mem).1.Initialize selfOff
        (d.Initialize selfOff mem).2.1).1 =
      (d.Initialize selfOff mem).1 ∧
    ((d.Initialize selfOff mem).1.Initialize selfOff
        (d.Initialize selfOff mem).2.1).2.1 =
      (d.Initialize selfOff mem).2.1 := by
  simp [PMwCASDescriptor.Initialize]

/-- The helper induction for C7: registration by `Add` appends while
capacity remains. -/
theorem addAll_append (ts : List PMwCASTarget) :
    ∀ d : PMwCASDescriptor,
      d.targets.length + ts.length ≤ kPMwCASCapacity →
      addAll d ts = some { d with targets := d.targets ++ ts } := by
  induction ts with
  | nil => intro d _; simp [addAll]
  | cons t ts ih =>
    intro d hle
    simp only [List.length_cons] at hle
    have hlt : d.targets.length < kPMwCASCapacity := by omega
    simp only [addAll, PMwCASDescriptor.Add, hlt, if_pos]
    rw [ih { d with targets := d.targets ++ [t] } (by simp; omega)]
    simp

/-- C7.  From the neutral state, `Add` succeeds exactly `kPMwCASCapacity`
times — each call appending the target and incrementing
`target_count` — and the `(K+1)`-th call fails fast (its
`assert(target_count_ < kPMwCASCapacity)` fires) instead of writing
outside `targets_[kPMwCASCapacity]`. -/
theorem add_capacity :
    (∀ (d : PMwCASDescriptor) (t : PMwCASTarget),
      d.target_count < kPMwCASCapacity →
      d.Add t = some { d with targets := d.targets ++ [t] }) ∧
    (∀ (d : PMwCASDescriptor) (ts : List PMwCASTarget),
      d.targets = [] → ts.length = kPMwCASCapacity →
      ∃ d', addAll d ts = some d' ∧ d'.targets = ts ∧
        d'.target_count = kPMwCASCapacity ∧ ∀ t, d'.Add t = none) ∧
    (∀ (d : PMwCASDescriptor) (t : PMwCASTarget),
      kPMwCASCapacity ≤ d.target_count →
      d.Add t = none) := by
  refine ⟨?_, ?_, ?_⟩
  · intro d t hlt
    simp [PMwCASDescriptor.Add, PMwCASDescriptor.target_count] at hlt ⊢
    omega
  · intro d ts hempty hlen
    refine ⟨{ d with targets := ts }, ?_, rfl, ?_, ?_⟩
    · have := addAll_append ts d (by simp [hempty, hlen])
      rw [this]
      simp [hempty]
    · simp [PMwCASDescriptor.target_count, hlen]
    · intro t
      simp [PMwCASDescriptor.Add, hlen]
  · intro d t hge
    simp [PMwCASDescriptor.Add, PMwCASDescriptor.target_count] at hge ⊢
    omega

/-- C7 witness: four registrations fill a descriptor; a fifth fails. -/
theorem add_capacity_witness :
    (PMwCASDescriptor.Add ⟨DescStatus.kCompleted, 0, []⟩
        ⟨1, 2, 3, MemOrder.relaxed⟩ =
      some ⟨DescStatus.kCompleted, 0, [⟨1, 2, 3, MemOrder.relaxed⟩]⟩) ∧
    (∃ d', addAll ⟨DescStatus.kCompleted, 0, []⟩
        [⟨1, 2, 3, MemOrder.relaxed⟩, ⟨2, 2, 3, MemOrder.relaxed⟩,
          ⟨3, 2, 3, MemOrder.relaxed⟩, ⟨4, 2, 3, MemOrder.relaxed⟩] = some d' ∧
      d'.targets =
        [⟨1, 2, 3, MemOrder.relaxed⟩, ⟨2, 2, 3, MemOrder.relaxed⟩,
          ⟨3, 2, 3, MemOrder.relaxed⟩, ⟨4, 2, 3, MemOrder.relaxed⟩] ∧
      d'.target_count = kPMwCASCapacity ∧ ∀ t, d'.Add t = none) ∧
    (PMwCASDescriptor.Add
        ⟨DescStatus.kCompleted, 0,
          [⟨1, 2, 3, MemOrder.relaxed⟩, ⟨2, 2, 3, MemOrder.relaxed⟩,
            ⟨3, 2, 3, MemOrder.relaxed⟩, ⟨4, 2, 3, MemOrder.relaxed⟩]⟩
        ⟨5, 2, 3, MemOrder.relaxed⟩ = none) :=
  ⟨add_capacity.1 _ _ (by decide),
    add_capacity.2.1 _ _ rfl (by decide),
    add_capacity.2.2 _ _ (by decide)⟩

/-! ### Claim theorems for the tagged-word encoding -/

/-- C3 counterexample.  The claim places the descriptor flag at bit 63
and the dirty flag at bit 62 of the current encoding; on the code's
constants (`pmem/atomic/utility.hpp`) the word `2^63` is dirty, not a
descriptor, and the word `2^62` is a descriptor, not dirty. -/
theorem flag_positions_cex :
    isDescriptorWord (2 ^ 63) = false ∧ isDirtyWord (2 ^ 63) = true ∧
    isDescriptorWord (2 ^ 62) = true ∧ isDirtyWord (2 ^ 62) = false ∧
    kPMwCASFlag ≠ 2 ^ 63 ∧ kDirtyFlag ≠ 2 ^ 62 := by
  decide

/-- C3 amended.  In the current `pmem::atomic` encoding bit 63 is the
dirty flag and bit 62 the descriptor flag (the legacy
`pmwcas::PMwCASWord` layout uses the opposite assignment: descriptor at
bit 63, dirty at bit 62); in either layout the intermediate test is the
disjunction of the two flag tests. -/
theorem flag_positions :
    kDirtyFlag = 2 ^ 63 ∧ kPMwCASFlag = 2 ^ 62 ∧
    PMwCASWord.kPMwCASFlag = 2 ^ 63 ∧ PMwCASWord.kDirtyFlag = 2 ^ 62 ∧
    (∀ w : Nat, isIntermediateWord w = (isDescriptorWord w || isDirtyWord w)) ∧
    (∀ w : Nat,
      PMwCASWord.IsIntermediate w =
        ((w &&& PMwCASWord.kPMwCASFlag != 0) || PMwCASWord.IsNotPersisted w)) := by
  refine ⟨rfl, rfl, rfl, rfl, ?_, ?_⟩
  · intro w
    have hsplit : w &&& kIsIntermediate = (w &&& kDirtyFlag) ||| (w &&& kPMwCASFlag) :=
      land_lor_distrib_left w kDirtyFlag kPMwCASFlag
    simp only [isIntermediateWord, isDescriptorWord, isDirtyWord, hsplit]
    by_cases h1 : w &&& kDirtyFlag = 0 <;> by_cases h2 : w &&& kPMwCASFlag = 0 <;>
      rw [Bool.eq_iff_iff] <;> simp [h1, h2, lor_eq_zero]
  · intro w
    have hsplit :
        w &&& (PMwCASWord.kPMwCASFlag ||| PMwCASWord.kDirtyFlag) =
          (w &&& PMwCASWord.kPMwCASFlag) ||| (w &&& PMwCASWord.kDirtyFlag) :=
      land_lor_distrib_left w PMwCASWord.kPMwCASFlag PMwCASWord.kDirtyFlag
    simp only [PMwCASWord.IsIntermediate, PMwCASWord.IsNotPersisted, hsplit]
    by_cases h1 : w &&& PMwCASWord.kPMwCASFlag = 0 <;>
      by_cases h2 : w &&& PMwCASWord.kDirtyFlag = 0 <;>
        rw [Bool.eq_iff_iff] <;> simp [h1, h2, lor_eq_zero]

/-! ### Claim theorems for install/redo memory orders -/

/-- C4 counterexample.  For a target registered with the hint
`seq_cst`, the install CAS of `EmbedDescriptor` carries `seq_cst` as
its success order (not relaxed as the claim states), and the
visible-commit store of `Redo` is relaxed (not the caller's hint). -/
theorem install_redo_orders_cex :
    (embedFrom (fun _ => 5) ⟨100, 5, 7, MemOrder.seqCst⟩ (77 ||| kPMwCASFlag)
        (kRetryNum + 1) 0).2.2 =
      [Event.casWord 100 5 (77 ||| kPMwCASFlag) MemOrder.seqCst MemOrder.relaxed] ∧
    MemOrder.seqCst ≠ MemOrder.relaxed ∧
    (PMwCASTarget.Redo ⟨100, 5, 7, MemOrder.seqCst⟩ (fun _ => 5)).2 =
      [Event.storeWord 100 7 MemOrder.relaxed, Event.flushWord 100] ∧
    Event.storeWord 100 7 MemOrder.seqCst ∉
      (PMwCASTarget.Redo ⟨100, 5, 7, MemOrder.seqCst⟩ (fun _ => 5)).2 := by
  refine ⟨by decide, by decide, rfl, by decide⟩

/-- C4 amended.  The install CAS of `EmbedDescriptor` uses the
caller-chosen memory-order hint (`fence_`) as its success order and
relaxed as its failure order, and the final store of `Redo` writes
`new_val_` with relaxed order before flushing — the opposite
assignment to the one the claim (and the spec) prescribes. -/
theorem install_redo_orders :
    (∀ (mem : Mem) (t : PMwCASTarget) (descAddr i : Nat) (e : Event),
      e ∈ (embedFrom mem t descAddr (kRetryNum + 1) i).2.2 →
      e = Event.casWord t.oid (mem t.oid) descAddr t.fence MemOrder.relaxed) ∧
    (∀ (mem : Mem) (t : PMwCASTarget),
      (t.Redo mem).2 =
        [Event.storeWord t.oid t.new_val MemOrder.relaxed,
          Event.flushWord t.oid]) := by
  constructor
  · intro mem t a i e he
    rw [embedFrom_eq] at he
    by_cases hm : mem t.oid = t.old_val
    · simp [hm] at he
      rw [he, hm]
    · simp [hm] at he
  · intro mem t
    rfl

/-- C4 amended witness. -/
theorem install_redo_orders_witness :
    (Event.casWord 100 5 (77 ||| kPMwCASFlag) MemOrder.seqCst MemOrder.relaxed =
      Event.casWord 100 5 (77 ||| kPMwCASFlag) MemOrder.seqCst MemOrder.relaxed) ∧
    (PMwCASTarget.Redo ⟨100, 5, 7, MemOrder.acquire⟩ (fun _ => 5)).2 =
      [Event.storeWord 100 7 MemOrder.relaxed, Event.flushWord 100] :=
  ⟨install_redo_orders.1 (fun _ => 5) ⟨100, 5, 7, MemOrder.seqCst⟩
      (77 ||| kPMwCASFlag) 0
      (Event.casWord 100 5 (77 ||| kPMwCASFlag) MemOrder.seqCst MemOrder.relaxed)
      (by decide),
    install_redo_orders.2 (fun _ => 5) ⟨100, 5, 7, MemOrder.acquire⟩⟩

/-! ### Claim theorems for the intermediate-state resolver -/

/-- While the adversary is silent and the cell keeps an intermediate
word, the resolver's bounded spin reloads the same word and only
advances the clock. -/
theorem spinLoad_silent (adv : Nat → Option Nat) :
    ∀ (n : Nat) (c : Cell) (w : Nat),
      c.val = w →
      (∀ t, t < c.time + n → adv t = none) →
      w &&& kIsIntermediate ≠ 0 →
      spinLoad adv n c w = (w, ⟨w, c.time + n⟩) := by
  intro n
  induction n with
  | zero =>
    intro c w hv _ _
    cases c with
    | mk v tm =>
      simp only at hv
      subst hv
      simp [spinLoad]
  | succ n ih =>
    intro c w hv hsil hint
    have hadv : adv c.time = none := hsil c.time (by omega)
    have hload : loadW adv c = (w, ⟨w, c.time + 1⟩) := by
      simp [loadW, advStep, hadv, hv]
    simp only [spinLoad, hload, hint, if_neg]
    have hrec := ih ⟨w, c.time + 1⟩ w rfl
      (fun t ht => hsil t (by simp only at ht; omega)) hint
    simp only at hrec
    rw [hrec]
    have harith : c.time + 1 + n = c.time + (n + 1) := by omega
    rw [harith]
    simp

/-- C5 amended.  When the resolver observes a dirty-only word unchanged
across the spin and the back-off, it persists the word and attempts the
CAS from the dirty form to the value with the dirty bit cleared; on CAS
*success* it updates the local copy with the dirty bit cleared and
returns, but on CAS *failure* the local copy takes the newly observed
word and the resolution loop continues — it does not return there. -/
theorem resolver_dirty_unchanged (adv : Nat → Option Nat) (c : Cell) (w : Nat)
    (hv : c.val = w)
    (hdirty : w &&& kDirtyFlag ≠ 0)
    (hdesc : w &&& kPMwCASFlag = 0)
    (hsil : ∀ t, t < c.time + kRetryNum + 1 → adv t = none) :
    (adv (c.time + kRetryNum + 1) = none →
      resolveIter adv c w =
        IterOut.ret (clearDirty w)
          ⟨clearDirty w, c.time + kRetryNum + 2⟩ [CellEvent.persistResolve]) ∧
    (∀ u, adv (c.time + kRetryNum + 1) = some u → u ≠ w →
      resolveIter adv c w =
        IterOut.cont u ⟨u, c.time + kRetryNum + 2⟩ [CellEvent.persistResolve]) := by
  have hint : w &&& kIsIntermediate ≠ 0 := dirty_intermediate w hdirty
  have hspin := spinLoad_silent adv kRetryNum c w hv
    (fun t ht => hsil t (by omega)) hint
  have hback : adv (c.time + kRetryNum) = none := hsil _ (by omega)
  have hload : loadW adv ⟨w, c.time + kRetryNum⟩ =
      (w, ⟨w, c.time + kRetryNum + 1⟩) := by
    simp [loadW, advStep, hback]
  constructor
  · intro hnone
    have hcas : casW adv ⟨w, c.time + kRetryNum + 1⟩ w (clearDirty w) =
        (true, w, ⟨clearDirty w, c.time + kRetryNum + 2⟩) := by
      simp [casW, advStep, hnone]
    simp [resolveIter, hspin, hload, hint, hdesc, hcas]
  · intro u hsome hne
    have hcas : casW adv ⟨w, c.time + kRetryNum + 1⟩ w (clearDirty w) =
        (false, u, ⟨u, c.time + kRetryNum + 2⟩) := by
      simp [casW, advStep, hsome, hne]
    simp [resolveIter, hspin, hload, hint, hdesc, hcas]

/-- C5 witness: with a silent window and an adversary acting only at
the CAS access, both the success branch and the failure branch of the
amended behaviour are realized. -/
theorem resolver_dirty_unchanged_witness :
    ((fun t => if t = 11 then some 99 else none : Nat → Option Nat) 11 = none →
      resolveIter (fun t => if t = 11 then some 99 else none)
          ⟨5 ||| kDirtyFlag, 0⟩ (5 ||| kDirtyFlag) =
        IterOut.ret (clearDirty (5 ||| kDirtyFlag))
          ⟨clearDirty (5 ||| kDirtyFlag), 12⟩ [CellEvent.persistResolve]) ∧
    (∀ u, (fun t => if t = 11 then some 99 else none : Nat → Option Nat) 11 =
        some u → u ≠ 5 ||| kDirtyFlag →
      resolveIter (fun t => if t = 11 then some 99 else none)
          ⟨5 ||| kDirtyFlag, 0⟩ (5 ||| kDirtyFlag) =
        IterOut.cont u ⟨u, 12⟩ [CellEvent.persistResolve]) :=
  resolver_dirty_unchanged (fun t => if t = 11 then some 99 else none)
    ⟨5 ||| kDirtyFlag, 0⟩ (5 ||| kDirtyFlag) rfl (by decide) (by decide)
    (by decide)

/-- C5 counterexample.  A run reaching the persist with the dirty-only
unchanged word `5 | R` whose promotion CAS then fails (another thread
embedded a descriptor): the resolver does not return with the local
copy `5` as the claim requires; it keeps looping and finally returns
`7`, the clean value observed later. -/
theorem resolver_dirty_unchanged_cex :
    resolveIS
        (fun t => if t = 11 then some (10 ||| kPMwCASFlag)
          else if t = 12 then some 7 else none)
        3 ⟨5 ||| kDirtyFlag, 0⟩ (5 ||| kDirtyFlag) =
      some (7, ⟨7, 13⟩, [CellEvent.persistResolve]) ∧
    (7 : Nat) ≠ clearDirty (5 ||| kDirtyFlag) := by
  constructor
  · decide
  · decide

/-! ### Claim theorems for PCAS -/

/-- Every `ret` outcome of a resolver iteration carries a local copy
with the dirty bit clear, and emits no `PCAS`-site persist. -/
theorem resolveIter_ret_clean (adv : Nat → Option Nat) (c : Cell) (w w' : Nat)
    (c' : Cell) (evs : List CellEvent)
    (h : resolveIter adv c w = IterOut.ret w' c' evs) :
    w' &&& kDirtyFlag = 0 ∧ CellEvent.persistPCAS ∉ evs := by
  unfold resolveIter at h
  dsimp only at h
  split at h
  case isTrue hclean =>
    obtain ⟨h1, -, h3⟩ := IterOut.ret.inj h
    subst h1
    subst h3
    exact ⟨(clean_flags _ hclean).1, by simp⟩
  case isFalse =>
    split at h
    case isTrue hclean =>
      obtain ⟨h1, -, h3⟩ := IterOut.ret.inj h
      subst h1
      subst h3
      exact ⟨(clean_flags _ hclean).1, by simp⟩
    case isFalse =>
      split at h
      · exact absurd h (by simp)
      · split at h
        · obtain ⟨h1, -, h3⟩ := IterOut.ret.inj h
          subst h1
          subst h3
          exact ⟨clearDirty_no_dirty _, by simp⟩
        · exact absurd h (by simp)

/-- Every `cont` outcome of a resolver iteration emits no `PCAS`-site
persist. -/
theorem resolveIter_cont_evs (adv : Nat → Option Nat) (c : Cell) (w w' : Nat)
    (c' : Cell) (evs : List CellEvent)
    (h : resolveIter adv c w = IterOut.cont w' c' evs) :
    CellEvent.persistPCAS ∉ evs := by
  unfold resolveIter at h
  dsimp only at h
  split at h
  case isTrue => exact absurd h (by simp)
  case isFalse =>
    split at h
    · exact absurd h (by simp)
    · split at h
      · obtain ⟨-, -, h3⟩ := IterOut.cont.inj h
        subst h3
        simp
      · split at h
        · exact absurd h (by simp)
        · obtain ⟨-, -, h3⟩ := IterOut.cont.inj h
          subst h3
          simp

/-- A terminating resolver run hands back a local copy with the dirty
bit clear and emits only resolver-site persists. -/
theorem resolveIS_post (adv : Nat → Option Nat) :
    ∀ (fuel : Nat) (c : Cell) (w w' : Nat) (c' : Cell) (evs : List CellEvent),
      resolveIS adv fuel c w = some (w', c', evs) →
      w' &&& kDirtyFlag = 0 ∧ CellEvent.persistPCAS ∉ evs := by
  intro fuel
  induction fuel with
  | zero => intro c w w' c' evs h; cases h
  | succ fuel ih =>
    intro c w w' c' evs h
    rw [resolveIS] at h
    split at h
    case isTrue hclean =>
      simp only [Option.some.injEq, Prod.mk.injEq] at h
      obtain ⟨h1, -, h3⟩ := h
      subst h1
      subst h3
      exact ⟨(clean_flags _ hclean).1, by simp⟩
    case isFalse =>
      split at h
      case h_1 w1 c1 evs1 heq =>
        simp only [Option.some.injEq, Prod.mk.injEq] at h
        obtain ⟨h1, -, h3⟩ := h
        subst h1
        subst h3
        exact resolveIter_ret_clean adv c w _ _ _ heq
      case h_2 w1 c1 evs1 heq =>
        split at h
        case h_1 w2 c2 evs2 heq2 =>
          simp only [Option.some.injEq, Prod.mk.injEq] at h
          obtain ⟨h1, -, h3⟩ := h
          subst h1
          subst h3
          have hin := ih c1 w1 _ c2 evs2 heq2
          have hcont := resolveIter_cont_evs adv c w w1 c1 evs1 heq
          refine ⟨hin.1, ?_⟩
          intro hmem
          rcases List.mem_append.mp hmem with hmem | hmem
          · exact hcont hmem
          · exact hin.2 hmem
        case h_2 => cases h

/-- The failure paths of the `PCAS` retry loop: the returned `expected`
has the dirty bit clear and the loop's own persist site never fired. -/
theorem pcasLoop_false (adv : Nat → Option Nat) (rfuel : Nat) :
    ∀ (fuel : Nat) (c : Cell) (origE expected desired w' : Nat) (c' : Cell)
      (evs : List CellEvent),
      pcasLoop adv rfuel fuel c origE expected desired =
        some (false, w', c', evs) →
      w' &&& kDirtyFlag = 0 ∧ CellEvent.persistPCAS ∉ evs := by
  intro fuel
  induction fuel with
  | zero => intro c oe e de w' c' evs h; cases h
  | succ fuel ih =>
    intro c oe e de w' c' evs h
    rw [pcasLoop] at h
    dsimp only at h
    split at h
    case isTrue => simp at h
    case isFalse =>
      split at h
      case isTrue hdirty =>
        split at h
        case h_1 => cases h
        case h_2 w c2 evs2 heq =>
          split at h
          case isTrue hne =>
            simp only [Option.some.injEq, Prod.mk.injEq] at h
            obtain ⟨-, h2, -, h4⟩ := h
            subst h2
            subst h4
            exact resolveIS_post adv rfuel _ _ _ _ _ heq
          case isFalse =>
            split at h
            case h_1 out heq2 =>
              obtain ⟨b, w2, c3, evs3⟩ := out
              simp only [Option.some.injEq, Prod.mk.injEq] at h
              obtain ⟨hb, h2, -, h4⟩ := h
              subst hb
              subst h2
              subst h4
              have hrec := ih c2 oe w de _ _ _ heq2
              have hres := resolveIS_post adv rfuel _ _ _ _ _ heq
              refine ⟨hrec.1, ?_⟩
              intro hmem
              rcases List.mem_append.mp hmem with hmem | hmem
              · exact hres.2 hmem
              · exact hrec.2 hmem
            case h_2 => cases h
      case isFalse hnd =>
        split at h
        case isTrue =>
          simp only [Option.some.injEq, Prod.mk.injEq] at h
          obtain ⟨-, h2, -, h4⟩ := h
          subst h2
          subst h4
          exact ⟨not_ne_iff.mp hnd, by simp⟩
        case isFalse => exact ih _ _ _ _ _ _ _ h

/-- C6 amended.  Whenever `PCAS` returns false, the in/out `expected`
has been updated to a current value of the word with the dirty bit
clear, and the failing call has not executed `PCAS`'s own persist
(`atomic.cpp:57`); any persistence barrier observed during the failing
call comes from the intermediate-state resolver helping a concurrent
in-flight write. -/
theorem pcas_failure (adv : Nat → Option Nat) (fuel rfuel : Nat) (c : Cell)
    (expected desired w' : Nat) (c' : Cell) (evs : List CellEvent)
    (h : PCAS adv fuel rfuel c expected desired = some (false, w', c', evs)) :
    w' &&& kDirtyFlag = 0 ∧ CellEvent.persistPCAS ∉ evs :=
  pcasLoop_false adv rfuel fuel c expected expected desired w' c' evs h

/-- C6 witness: a failing `PCAS` against a dirty word (the resolver
runs, cleans, and the call fails with the cleaned value). -/
theorem pcas_failure_witness :
    (5 : Nat) &&& kDirtyFlag = 0 ∧
    CellEvent.persistPCAS ∉ [CellEvent.persistResolve] :=
  pcas_failure (fun _ => none) 2 2 ⟨5 ||| kDirtyFlag, 0⟩ 3 4 5 ⟨5, 13⟩
    [CellEvent.persistResolve] (by decide)

/-- C6 counterexample.  The claim also asserts that a failing `pcas`
issues *no* persistence barrier; but on a word left dirty by a
concurrent writer the failing call's resolver issues one
(`common.cpp:56`) while cleaning the word, so the event list of this
failing run is not empty. -/
theorem pcas_failure_cex :
    PCAS (fun _ => none) 2 2 ⟨5 ||| kDirtyFlag, 0⟩ 3 4 =
      some (false, 5, ⟨5, 13⟩, [CellEvent.persistResolve]) ∧
    ([CellEvent.persistResolve] : List CellEvent) ≠ [] := by
  constructor
  · decide
  · decide

/-- C10.  A `pcas` call can fail with `expected` holding a
descriptor-tagged word: when the word contains an embedded PMwCAS
descriptor (descriptor flag set, dirty flag clear), the first CAS
fails, the resolver is not invoked (the cell clock shows a single
atomic access and no resolver events), and the call returns false
immediately with the tagged word in `expected`. -/
theorem pcas_descriptor_word :
    PCAS (fun _ => none) 2 2 ⟨5 ||| kPMwCASFlag, 0⟩ 3 4 =
      some (false, 5 ||| kPMwCASFlag, ⟨5 ||| kPMwCASFlag, 1⟩, []) ∧
    isDescriptorWord (5 ||| kPMwCASFlag) = true ∧
    isDirtyWord (5 ||| kPMwCASFlag) = false := by
  refine ⟨by decide, by decide, by decide⟩
